import Mathlib

/-!
Shallow embedding of the Tinkerforge bindings-generator core
(`common.py` and the marshalling semantics of the Java backend in
`generate_java_bindings.py`), together with theorems settling the
specification's claims about it.

Python dictionaries/tuples are modelled as structures, exceptions as
`Except String` (the message mirrors the source), dictionary-lookup
failure (`KeyError`) as `Option`, and machine integers as `Nat` with
explicit `% 256^w` where the Java byte-buffer writes truncate.
-/

namespace Generators

/-- One element tuple `(name, type, cardinality, direction)` of a packet,
as in the configuration records consumed by `common.py`. -/
structure Element where
  name : String
  typ : String
  cardinality : Nat
  direction : String
deriving DecidableEq, Repr, Inhabited

/-- A raw packet record (the Python dict appended to `com['packets']`):
`type`, `name[0]` (camel case), `name[1]` (underscore), `elements`,
optional explicit `function_id`, and `doc[0]` (the doc tag). -/
structure PacketRecord where
  typ : String
  display_name : String
  wire_name : String
  elements : List Element
  function_id : Option Nat
  doc_tag : String
deriving DecidableEq, Repr, Inhabited

/-- `get_type_size` from `common.py`: the fixed width table. A missing
key (Python `KeyError`) is `none`. -/
def get_type_size (typ : String) : Option Nat :=
  if typ = "int8" then some 1
  else if typ = "uint8" then some 1
  else if typ = "int16" then some 2
  else if typ = "uint16" then some 2
  else if typ = "int32" then some 4
  else if typ = "uint32" then some 4
  else if typ = "int64" then some 8
  else if typ = "uint64" then some 8
  else if typ = "float" then some 4
  else if typ = "bool" then some 1
  else if typ = "string" then some 1
  else if typ = "char" then some 1
  else none

/-- `get_element_size`: `get_type_size(element[1]) * element[2]`. -/
def get_element_size (e : Element) : Option Nat :=
  (get_type_size e.typ).map (fun w => w * e.cardinality)

/-- Python `str.lower()` on the ASCII identifiers used in configs. -/
def lowerStr (s : String) : String :=
  String.mk (s.data.map Char.toLower)

/-- Python `str.upper()` on the ASCII identifiers used in configs. -/
def upperStr (s : String) : String :=
  String.mk (s.data.map Char.toUpper)

/-- Python `str.replace('_', '')`. -/
def removeUnderscore (s : String) : String :=
  String.mk (s.data.filter (fun c => c ≠ '_'))

/-- The element loop of `Packet.__init__`: split `elements` into the
`in` and `out` sublists in order, raising `ValueError` on the first
element whose direction is neither. -/
def partitionElements : List Element → Except String (List Element × List Element)
  | [] => .ok ([], [])
  | e :: es =>
    if e.direction = "in" then
      match partitionElements es with
      | .error msg => .error msg
      | .ok (ins, outs) => .ok (e :: ins, outs)
    else if e.direction = "out" then
      match partitionElements es with
      | .error msg => .error msg
      | .ok (ins, outs) => .ok (ins, e :: outs)
    else
      .error ("Invalid element direction " ++ e.direction)

/-- A constructed `Packet`: the record it wraps plus the cached
direction sublists. -/
structure Packet where
  record : PacketRecord
  in_elements : List Element
  out_elements : List Element
deriving DecidableEq, Repr, Inhabited

/-- `Packet.__init__`: check the camel-case/underscore name pair, then
partition the elements by direction. -/
def Packet.init (p : PacketRecord) : Except String Packet :=
  if lowerStr p.display_name ≠ removeUnderscore p.wire_name then
    .error ("Name mismatch: " ++ p.display_name ++ " != " ++ p.wire_name)
  else
    match partitionElements p.elements with
    | .error msg => .error msg
    | .ok (ins, outs) => .ok { record := p, in_elements := ins, out_elements := outs }

def Packet.all_elements (pk : Packet) : List Element :=
  pk.record.elements

def Packet.get_type (pk : Packet) : String :=
  pk.record.typ

def Packet.get_function_id (pk : Packet) : Option Nat :=
  pk.record.function_id

def Packet.get_upper_case_name (pk : Packet) : String :=
  upperStr pk.record.wire_name

/-- `Packet.get_elements(direction=None)`. -/
def Packet.get_elements (pk : Packet) : Option String → Except String (List Element)
  | none => .ok pk.all_elements
  | some d =>
    if d = "in" then .ok pk.in_elements
    else if d = "out" then .ok pk.out_elements
    else .error ("Invalid element direction " ++ d)

/-- The accumulation loop shared by `get_request_length` and
`get_response_length`; `none` when some element's type is unknown. -/
def sumElementSizes : List Element → Option Nat
  | [] => some 0
  | e :: es =>
    match get_element_size e, sumElementSizes es with
    | some a, some b => some (a + b)
    | _, _ => none

/-- `Packet.get_request_length`: 4 plus the in-element sizes. -/
def Packet.get_request_length (pk : Packet) : Option Nat :=
  (sumElementSizes pk.in_elements).map (fun s => 4 + s)

/-- `Packet.get_response_length`: 4 plus the out-element sizes. -/
def Packet.get_response_length (pk : Packet) : Option Nat :=
  (sumElementSizes pk.out_elements).map (fun s => 4 + s)

/-- The `com` dictionary of a device configuration, restricted to the
fields the generator core reads; `common_included` models the presence
of the `'common_included'` key (absent = `false` in fresh configs). -/
structure Com where
  camel_case_name : String
  underscore_name : String
  display_name : String
  category : String
  description : String
  packets : List PacketRecord
  common_included : Bool
deriving DecidableEq, Repr, Inhabited

/-- The first loop of `Device.__init__`: walk the packet records with
`i = 0, 1, ...` and give every record lacking a `function_id` the id
`i + 1`; explicit ids are left untouched. -/
def assignIds : Nat → List PacketRecord → List PacketRecord
  | _, [] => []
  | i, p :: ps =>
    (if p.function_id = none then { p with function_id := some (i + 1) } else p)
      :: assignIds (i + 1) ps

/-- Construct a `Packet` from every record, stopping at the first
failure (as the Python loop does). -/
def initPackets : List PacketRecord → Except String (List Packet)
  | [] => .ok []
  | p :: ps =>
    match Packet.init p with
    | .error msg => .error msg
    | .ok pk =>
      match initPackets ps with
      | .error msg => .error msg
      | .ok pks => .ok (pk :: pks)

/-- The second loop of `Device.__init__`: partition the constructed
packets by `get_type()`, raising `ValueError` on the first packet whose
type is neither `function` nor `callback`. -/
def partitionPackets : List Packet → Except String (List Packet × List Packet)
  | [] => .ok ([], [])
  | pk :: pks =>
    if pk.record.typ = "function" then
      match partitionPackets pks with
      | .error msg => .error msg
      | .ok (funcs, cbs) => .ok (pk :: funcs, cbs)
    else if pk.record.typ = "callback" then
      match partitionPackets pks with
      | .error msg => .error msg
      | .ok (funcs, cbs) => .ok (funcs, pk :: cbs)
    else
      .error ("Invalid packet type " ++ pk.record.typ)

/-- A constructed `Device`. `com` holds the records after the id
assignment (the Python code mutates the shared dicts in place). -/
structure Device where
  com : Com
  all_packets : List Packet
  function_packets : List Packet
  callback_packets : List Packet
deriving DecidableEq, Repr, Inhabited

/-- `Device.__init__`. -/
def Device.init (com : Com) : Except String Device :=
  match initPackets (assignIds 0 com.packets) with
  | .error msg => .error msg
  | .ok pks =>
    match partitionPackets pks with
    | .error msg => .error msg
    | .ok (funcs, cbs) =>
      .ok { com := { com with packets := assignIds 0 com.packets }, all_packets := pks,
            function_packets := funcs, callback_packets := cbs }

/-- `Device.get_packets(typ=None)`. -/
def Device.get_packets (d : Device) : Option String → Except String (List Packet)
  | none => .ok d.all_packets
  | some t =>
    if t = "function" then .ok d.function_packets
    else if t = "callback" then .ok d.callback_packets
    else .error ("Invalid packet type " ++ t)

def Device.get_callback_count (d : Device) : Nat :=
  d.callback_packets.length

end Generators

namespace Generators

theorem partitionElements_mem (es ins outs : List Element)
    (h : partitionElements es = .ok (ins, outs)) :
    (∀ e ∈ ins, e ∈ es) ∧ (∀ e ∈ outs, e ∈ es) := by
  induction es generalizing ins outs with
  | nil =>
    simp only [partitionElements, Except.ok.injEq, Prod.mk.injEq] at h
    obtain ⟨h1, h2⟩ := h
    subst h1; subst h2
    simp
  | cons e es ih =>
    unfold partitionElements at h
    by_cases hin : e.direction = "in"
    · rw [if_pos hin] at h
      cases hrec : partitionElements es with
      | error msg => rw [hrec] at h; exact absurd h (by simp)
      | ok pr =>
        obtain ⟨i2, o2⟩ := pr
        rw [hrec] at h
        simp only [Except.ok.injEq, Prod.mk.injEq] at h
        obtain ⟨h1, h2⟩ := h
        subst h1; subst h2
        have hih := ih i2 o2 hrec
        constructor
        · intro x hx
          rcases List.mem_cons.mp hx with hx | hx
          · exact hx ▸ List.mem_cons_self _ _
          · exact List.mem_cons_of_mem _ (hih.1 x hx)
        · intro x hx
          exact List.mem_cons_of_mem _ (hih.2 x hx)
    · rw [if_neg hin] at h
      by_cases hout : e.direction = "out"
      · rw [if_pos hout] at h
        cases hrec : partitionElements es with
        | error msg => rw [hrec] at h; exact absurd h (by simp)
        | ok pr =>
          obtain ⟨i2, o2⟩ := pr
          rw [hrec] at h
          simp only [Except.ok.injEq, Prod.mk.injEq] at h
          obtain ⟨h1, h2⟩ := h
          subst h1; subst h2
          have hih := ih i2 o2 hrec
          constructor
          · intro x hx
            exact List.mem_cons_of_mem _ (hih.1 x hx)
          · intro x hx
            rcases List.mem_cons.mp hx with hx | hx
            · exact hx ▸ List.mem_cons_self _ _
            · exact List.mem_cons_of_mem _ (hih.2 x hx)
      · rw [if_neg hout] at h
        exact absurd h (by simp)

theorem Packet.init_ok_parts (p : PacketRecord) (pk : Packet)
    (h : Packet.init p = .ok pk) :
    pk.record = p ∧
      partitionElements p.elements = .ok (pk.in_elements, pk.out_elements) := by
  unfold Packet.init at h
  by_cases hname : lowerStr p.display_name ≠ removeUnderscore p.wire_name
  · rw [if_pos hname] at h; exact absurd h (by simp)
  · rw [if_neg hname] at h
    cases hrec : partitionElements p.elements with
    | error msg => rw [hrec] at h; exact absurd h (by simp)
    | ok pr =>
      obtain ⟨ins, outs⟩ := pr
      rw [hrec] at h
      simp only [Except.ok.injEq] at h
      subst h
      exact ⟨rfl, rfl⟩

theorem sumElementSizes_eq_of_known (es : List Element)
    (h : ∀ e ∈ es, (get_type_size e.typ).isSome) :
    sumElementSizes es =
      some ((es.map (fun e => (get_type_size e.typ).getD 0 * e.cardinality)).sum) := by
  induction es with
  | nil => rfl
  | cons e es ih =>
    have he := h e (List.mem_cons_self e es)
    obtain ⟨w, hw⟩ := Option.isSome_iff_exists.mp he
    have hrest := ih (fun x hx => h x (List.mem_cons_of_mem e hx))
    simp [sumElementSizes, get_element_size, hw, hrest]

/-- C1: for every constructed packet whose element types are all in the
width table, `get_request_length` is 4 plus the sum of
type-width × cardinality over the in-elements, and
`get_response_length` is the same sum over the out-elements. -/
theorem c1_packet_lengths (p : PacketRecord) (pk : Packet)
    (hok : Packet.init p = .ok pk)
    (htypes : ∀ e ∈ p.elements, (get_type_size e.typ).isSome) :
    pk.get_request_length =
      some (4 + (pk.in_elements.map
        (fun e => (get_type_size e.typ).getD 0 * e.cardinality)).sum) ∧
    pk.get_response_length =
      some (4 + (pk.out_elements.map
        (fun e => (get_type_size e.typ).getD 0 * e.cardinality)).sum) := by
  obtain ⟨hrec, hpart⟩ := Packet.init_ok_parts p pk hok
  have hmem := partitionElements_mem p.elements pk.in_elements pk.out_elements hpart
  constructor
  · have hin : ∀ e ∈ pk.in_elements, (get_type_size e.typ).isSome :=
      fun e he => htypes e (hmem.1 e he)
    rw [Packet.get_request_length, sumElementSizes_eq_of_known _ hin]
    rfl
  · have hout : ∀ e ∈ pk.out_elements, (get_type_size e.typ).isSome :=
      fun e he => htypes e (hmem.2 e he)
    rw [Packet.get_response_length, sumElementSizes_eq_of_known _ hout]
    rfl

/-- The Beep packet of the piezo speaker config: one uint32 and one
uint16 in-element, no out-elements. -/
def beepRecord : PacketRecord :=
  { typ := "function", display_name := "Beep", wire_name := "beep",
    elements := [⟨"duration", "uint32", 1, "in"⟩, ⟨"frequency", "uint16", 1, "in"⟩],
    function_id := none, doc_tag := "bf" }

def beepPacket : Packet :=
  { record := beepRecord,
    in_elements := [⟨"duration", "uint32", 1, "in"⟩, ⟨"frequency", "uint16", 1, "in"⟩],
    out_elements := [] }

theorem c1_packet_lengths_witness :
    beepPacket.get_request_length = some 10 ∧
    beepPacket.get_response_length = some 4 := by
  have h := c1_packet_lengths beepRecord beepPacket rfl (by decide)
  exact ⟨h.1.trans (by decide), h.2.trans (by decide)⟩

/-- C2 counterexample: the width table has no entry named `float32`
(the four-byte float type is keyed `float`), so the lookup the claim
says returns 4 fails instead. -/
theorem c2_float32_counterexample : get_type_size "float32" = none := by
  decide

/-- C2 (amended): the width lookup is exactly the fixed table over the
closed set int8/uint8/bool/char/string → 1, int16/uint16 → 2,
int32/uint32/float → 4, int64/uint64 → 8 — the float type is named
`float`, not `float32` — and it fails (a `KeyError`, modelled as
`none`) for every type name outside that closed set. -/
theorem c2_type_size_table :
    (get_type_size "int8" = some 1 ∧ get_type_size "uint8" = some 1 ∧
     get_type_size "bool" = some 1 ∧ get_type_size "char" = some 1 ∧
     get_type_size "string" = some 1 ∧ get_type_size "int16" = some 2 ∧
     get_type_size "uint16" = some 2 ∧ get_type_size "int32" = some 4 ∧
     get_type_size "uint32" = some 4 ∧ get_type_size "float" = some 4 ∧
     get_type_size "int64" = some 8 ∧ get_type_size "uint64" = some 8) ∧
    ∀ t : String,
      t ∉ ["int8", "uint8", "int16", "uint16", "int32", "uint32", "int64",
           "uint64", "float", "bool", "string", "char"] →
      get_type_size t = none := by
  refine ⟨by decide, ?_⟩
  intro t ht
  simp only [List.mem_cons, List.not_mem_nil, or_false, not_or] at ht
  obtain ⟨h1, h2, h3, h4, h5, h6, h7, h8, h9, h10, h11, h12⟩ := ht
  simp [get_type_size, h1, h2, h3, h4, h5, h6, h7, h8, h9, h10, h11, h12]

theorem c2_type_size_table_witness : get_type_size "floof" = none :=
  c2_type_size_table.2 "floof" (by decide)

end Generators

namespace Generators

theorem assignIds_length (n : Nat) (rs : List PacketRecord) :
    (assignIds n rs).length = rs.length := by
  induction rs generalizing n with
  | nil => rfl
  | cons p ps ih => simp [assignIds, ih]

theorem assignIds_get? (rs : List PacketRecord) (n i : Nat) (h : i < rs.length) :
    (assignIds n rs).get? i =
      some (if (rs.get ⟨i, h⟩).function_id = none
            then { rs.get ⟨i, h⟩ with function_id := some (n + i + 1) }
            else rs.get ⟨i, h⟩) := by
  induction rs generalizing n i with
  | nil => exact absurd h (by simp)
  | cons p ps ih =>
    cases i with
    | zero => simp [assignIds]
    | succ j =>
      have hj : j < ps.length := Nat.lt_of_succ_lt_succ h
      have harith : n + 1 + j + 1 = n + (j + 1) + 1 := by omega
      have hrec := ih (n + 1) j hj
      rw [harith] at hrec
      simpa [assignIds] using hrec

theorem Device.init_ok_split (com : Com) (d : Device)
    (h : Device.init com = .ok d) :
    d.com = { com with packets := assignIds 0 com.packets } ∧
      initPackets (assignIds 0 com.packets) = .ok d.all_packets ∧
      partitionPackets d.all_packets = .ok (d.function_packets, d.callback_packets) := by
  unfold Device.init at h
  cases h1 : initPackets (assignIds 0 com.packets) with
  | error msg => rw [h1] at h; exact absurd h (by simp)
  | ok pks =>
    rw [h1] at h
    dsimp only at h
    cases h2 : partitionPackets pks with
    | error msg => rw [h2] at h; exact absurd h (by simp)
    | ok pr =>
      obtain ⟨funcs, cbs⟩ := pr
      rw [h2] at h
      simp only [Except.ok.injEq] at h
      subst h
      exact ⟨rfl, rfl, h2⟩

/-- C3: constructing a `Device` walks the packet records in declared
order; a record without an explicit `function_id` receives the 1-based
position `i + 1`, and a record with an explicit id is left untouched. -/
theorem c3_function_id_assignment (com : Com) (d : Device)
    (hok : Device.init com = .ok d) (i : Nat) (h : i < com.packets.length) :
    d.com.packets.get? i =
      some (if (com.packets.get ⟨i, h⟩).function_id = none
            then { com.packets.get ⟨i, h⟩ with function_id := some (i + 1) }
            else com.packets.get ⟨i, h⟩) := by
  obtain ⟨hcom, -, -⟩ := Device.init_ok_split com d hok
  rw [hcom]
  have := assignIds_get? com.packets 0 i h
  simpa using this

/-- The MorseCode packet of the piezo speaker config. -/
def morseRecord : PacketRecord :=
  { typ := "function", display_name := "MorseCode", wire_name := "morse_code",
    elements := [⟨"morse", "string", 60, "in"⟩, ⟨"frequency", "uint16", 1, "in"⟩],
    function_id := none, doc_tag := "bf" }

/-- A third function packet without an explicit id. -/
def calibrateRecord : PacketRecord :=
  { typ := "function", display_name := "Calibrate", wire_name := "calibrate",
    elements := [], function_id := none, doc_tag := "af" }

/-- A device configuration with three function packets, none carrying
an explicit `function_id`. -/
def threeCom : Com :=
  { camel_case_name := "PiezoSpeaker", underscore_name := "piezo_speaker",
    display_name := "Piezo Speaker", category := "Bricklet",
    description := "Device for controlling a piezo buzzer",
    packets := [beepRecord, morseRecord, calibrateRecord], common_included := false }

/-- The device constructed from `threeCom`. -/
def threeDev : Device :=
  match Device.init threeCom with
  | .ok d => d
  | .error _ => default

theorem c3_function_id_assignment_witness :
    threeDev.com.packets.get? 0 = some { beepRecord with function_id := some 1 } := by
  have h := c3_function_id_assignment threeCom threeDev rfl 0 (by decide)
  exact h.trans (by decide)

/-- The function ids of a device's packets, in order. -/
def deviceFunctionIds (d : Device) : List (Option Nat) :=
  d.all_packets.map Packet.get_function_id

/-- A packet record with explicit `function_id` 3. -/
def dupRecordA : PacketRecord :=
  { typ := "function", display_name := "GetA", wire_name := "get_a",
    elements := [], function_id := some 3, doc_tag := "bf" }

/-- A second packet record with the same explicit `function_id` 3. -/
def dupRecordB : PacketRecord :=
  { typ := "function", display_name := "GetB", wire_name := "get_b",
    elements := [], function_id := some 3, doc_tag := "bf" }

/-- A device configuration declaring two packets with the same explicit
`function_id`. -/
def dupCom : Com :=
  { camel_case_name := "Dup", underscore_name := "dup", display_name := "Dup",
    category := "Bricklet", description := "duplicate ids",
    packets := [dupRecordA, dupRecordB], common_included := false }

/-- C4 counterexample: `Device.__init__` performs no uniqueness check
on function ids — a configuration with two packets declared with the
same explicit `function_id` 3 constructs successfully, and the
resulting id list `[3, 3]` is not pairwise-unique; no error is
raised. -/
theorem c4_duplicate_ids_counterexample :
    (Device.init dupCom).toOption.map deviceFunctionIds = some [some 3, some 3] ∧
    ¬ ([some 3, some 3] : List (Option Nat)).Nodup := by
  exact ⟨by rfl, by decide⟩

theorem initPackets_function_ids (rs : List PacketRecord) (pks : List Packet)
    (h : initPackets rs = .ok pks) :
    pks.map Packet.get_function_id = rs.map PacketRecord.function_id := by
  induction rs generalizing pks with
  | nil =>
    simp only [initPackets, Except.ok.injEq] at h
    subst h; rfl
  | cons p ps ih =>
    unfold initPackets at h
    cases h1 : Packet.init p with
    | error msg => rw [h1] at h; exact absurd h (by simp)
    | ok pk =>
      rw [h1] at h
      cases h2 : initPackets ps with
      | error msg => rw [h2] at h; exact absurd h (by simp)
      | ok rest =>
        rw [h2] at h
        simp only [Except.ok.injEq] at h
        subst h
        have hrec := (Packet.init_ok_parts p pk h1).1
        simp [Packet.get_function_id, hrec, ih rest h2]

theorem assignIds_function_ids_of_none (n : Nat) (rs : List PacketRecord)
    (h : ∀ r ∈ rs, r.function_id = none) :
    (assignIds n rs).map PacketRecord.function_id =
      (List.range' (n + 1) rs.length).map some := by
  induction rs generalizing n with
  | nil => rfl
  | cons p ps ih =>
    have hp := h p (List.mem_cons_self p ps)
    have hrest := ih (n + 1) (fun r hr => h r (List.mem_cons_of_mem p hr))
    simp [assignIds, hp, hrest, List.range'_succ]

/-- C4 (amended): `Device.__init__` performs no uniqueness check, so
duplicate explicit function ids are accepted silently; uniqueness is
only guaranteed when no packet carries an explicit id, in which case
the auto-assigned ids 1..n are pairwise distinct. -/
theorem c4_function_ids_nodup_of_no_explicit (com : Com) (d : Device)
    (hnone : ∀ r ∈ com.packets, r.function_id = none)
    (hok : Device.init com = .ok d) :
    (deviceFunctionIds d).Nodup := by
  obtain ⟨-, hinit, -⟩ := Device.init_ok_split com d hok
  have h1 := initPackets_function_ids _ _ hinit
  have h2 := assignIds_function_ids_of_none 0 com.packets hnone
  rw [deviceFunctionIds, h1, h2]
  exact (List.nodup_range' 1 com.packets.length).map (Option.some_injective _)

theorem c4_function_ids_nodup_witness : (deviceFunctionIds threeDev).Nodup :=
  c4_function_ids_nodup_of_no_explicit threeCom threeDev (by decide) rfl

/-- The per-function-packet `setto` computation of
`get_java_response_expected` in `generate_java_bindings.py`:
`ALWAYS_TRUE` when the packet has out-elements, else `TRUE` when the
doc tag is `ccf`, else the default `FALSE`. -/
def function_response_expected_setto (pk : Packet) : String :=
  if pk.out_elements.length > 0 then "RESPONSE_EXPECTED_FLAG_ALWAYS_TRUE;"
  else if pk.record.doc_tag = "ccf" then "RESPONSE_EXPECTED_FLAG_TRUE;"
  else "RESPONSE_EXPECTED_FLAG_FALSE;"

/-- The `setto` used for every callback packet, independent of its
elements. -/
def callback_response_expected_setto : String :=
  "RESPONSE_EXPECTED_FLAG_ALWAYS_FALSE;"

/-- One line of the generated `responseExpected` initialiser. -/
def response_expected_line (name setto : String) : String :=
  "\t\tresponseExpected[IPConnection.unsignedByte(" ++ name ++ ")] = " ++ setto ++ "\n"

/-- `get_java_response_expected`: the function-packet lines followed by
the callback-packet lines. -/
def get_java_response_expected (d : Device) : String :=
  String.join (d.function_packets.map (fun pk =>
    response_expected_line ("FUNCTION_" ++ pk.get_upper_case_name)
      (function_response_expected_setto pk))) ++
  String.join (d.callback_packets.map (fun pk =>
    response_expected_line ("CALLBACK_" ++ pk.get_upper_case_name)
      callback_response_expected_setto))

/-- C5: a function packet's response-expected flag is `ALWAYS_TRUE`
exactly when it has at least one out-element; with no out-elements it
is `TRUE` or `FALSE` according to the per-packet `ccf` doc-tag
override, defaulting to `FALSE`; every callback packet gets
`ALWAYS_FALSE` regardless of its elements. -/
theorem c5_response_expected (pk : Packet) :
    (function_response_expected_setto pk = "RESPONSE_EXPECTED_FLAG_ALWAYS_TRUE;" ↔
      pk.out_elements ≠ []) ∧
    (pk.out_elements = [] →
      function_response_expected_setto pk =
        (if pk.record.doc_tag = "ccf" then "RESPONSE_EXPECTED_FLAG_TRUE;"
         else "RESPONSE_EXPECTED_FLAG_FALSE;")) ∧
    callback_response_expected_setto = "RESPONSE_EXPECTED_FLAG_ALWAYS_FALSE;" := by
  refine ⟨?_, ?_, rfl⟩
  · by_cases h : pk.out_elements.length > 0
    · rw [function_response_expected_setto, if_pos h]
      exact iff_of_true rfl (List.length_pos.mp h)
    · have hnil : pk.out_elements = [] :=
        List.length_eq_zero.mp (Nat.eq_zero_of_not_pos h)
      rw [function_response_expected_setto, if_neg h]
      refine iff_of_false ?_ (by simp [hnil])
      by_cases hc : pk.record.doc_tag = "ccf"
      · rw [if_pos hc]; decide
      · rw [if_neg hc]; decide
  · intro hnil
    rw [function_response_expected_setto, if_neg (by simp [hnil])]

theorem c5_response_expected_witness :
    function_response_expected_setto beepPacket = "RESPONSE_EXPECTED_FLAG_FALSE;" := by
  have h := (c5_response_expected beepPacket).2.1 rfl
  exact h.trans (by decide)

/-- Is `pat` an initial segment of `s`? -/
def hasPre : List Char → List Char → Bool
  | [], _ => true
  | _ :: _, [] => false
  | a :: as, b :: bs => a = b && hasPre as bs

/-- Does `s` contain `pat` as a contiguous segment? -/
def hasSub (pat : List Char) : List Char → Bool
  | [] => hasPre pat []
  | b :: bs => hasPre pat (b :: bs) || hasSub pat bs

/-- Python `pat in s` on strings. -/
def strContains (s pat : String) : Bool :=
  hasSub pat.data s.data

/-- One iteration of the config loop in `common.generate`: when the
config file name contains `brick_` and the `com` dict does not yet
carry the `common_included` marker, extend the packet list with the
shared common packets and set the marker; otherwise leave `com`
unchanged. -/
def process_config (common_packets : List PacketRecord) (config_name : String)
    (com : Com) : Com :=
  if strContains config_name "brick_" && !com.common_included then
    { com with packets := com.packets ++ common_packets, common_included := true }
  else com

/-- C6: the common-packet merge is guarded by the per-device
`common_included` marker, so running it a second time over the same
configuration changes nothing (in particular the packet list keeps its
length), and a participating, not-yet-merged configuration receives
the common packets exactly once. -/
theorem c6_common_merge_idempotent (common_packets : List PacketRecord)
    (config_name : String) (com : Com) :
    process_config common_packets config_name
        (process_config common_packets config_name com) =
      process_config common_packets config_name com ∧
    (strContains config_name "brick_" = true → com.common_included = false →
      (process_config common_packets config_name com).packets =
          com.packets ++ common_packets ∧
        (process_config common_packets config_name com).common_included = true) := by
  constructor
  · by_cases h : (strContains config_name "brick_" && !com.common_included) = true
    · have hmerge : process_config common_packets config_name com =
          { com with packets := com.packets ++ common_packets, common_included := true } := by
        rw [process_config, if_pos h]
      rw [hmerge, process_config, if_neg (by simp)]
    · have hid : process_config common_packets config_name com = com := by
        rw [process_config, if_neg h]
      rw [hid, hid]
  · intro h1 h2
    rw [process_config, if_pos (by rw [h1, h2]; rfl)]
    exact ⟨rfl, rfl⟩

/-- A fresh Brick configuration, before common-packet injection. -/
def brickCom : Com :=
  { camel_case_name := "DC", underscore_name := "dc", display_name := "DC",
    category := "Brick", description := "DC Brick",
    packets := [beepRecord], common_included := false }

theorem c6_common_merge_idempotent_witness :
    (process_config [calibrateRecord] "brick_dc_config.py" brickCom).packets =
        brickCom.packets ++ [calibrateRecord] ∧
      (process_config [calibrateRecord] "brick_dc_config.py" brickCom).common_included
        = true :=
  (c6_common_merge_idempotent [calibrateRecord] "brick_dc_config.py" brickCom).2
    (by decide) rfl

/-- Did a construction step succeed (no exception)? -/
def okB {α : Type} : Except String α → Bool
  | .ok _ => true
  | .error _ => false

/-- A packet record passes all three schema checks of device
construction: name casing, element directions, packet kind. -/
def recordValid (r : PacketRecord) : Prop :=
  lowerStr r.display_name = removeUnderscore r.wire_name ∧
  (∀ e ∈ r.elements, e.direction = "in" ∨ e.direction = "out") ∧
  (r.typ = "function" ∨ r.typ = "callback")

instance (r : PacketRecord) : Decidable (recordValid r) := by
  unfold recordValid; infer_instance

theorem ball_and_iff {α : Type} (l : List α) (A B : α → Prop) :
    (∀ x ∈ l, A x ∧ B x) ↔ (∀ x ∈ l, A x) ∧ (∀ x ∈ l, B x) := by
  constructor
  · intro h
    exact ⟨fun x hx => (h x hx).1, fun x hx => (h x hx).2⟩
  · intro h x hx
    exact ⟨h.1 x hx, h.2 x hx⟩

theorem partitionElements_okB_iff (es : List Element) :
    okB (partitionElements es) = true ↔
      ∀ e ∈ es, e.direction = "in" ∨ e.direction = "out" := by
  induction es with
  | nil => simp [partitionElements, okB]
  | cons e es ih =>
    by_cases h1 : e.direction = "in"
    · cases hrec : partitionElements es with
      | error msg =>
        rw [hrec] at ih
        simp only [okB, Bool.false_eq_true, false_iff] at ih
        simp [partitionElements, h1, hrec, okB, ih]
      | ok pr =>
        obtain ⟨ins, outs⟩ := pr
        rw [hrec] at ih
        simp only [okB, true_iff] at ih
        simpa [partitionElements, h1, hrec, okB] using ih
    · by_cases h2 : e.direction = "out"
      · cases hrec : partitionElements es with
        | error msg =>
          rw [hrec] at ih
          simp only [okB, Bool.false_eq_true, false_iff] at ih
          simp [partitionElements, h1, h2, hrec, okB, ih]
        | ok pr =>
          obtain ⟨ins, outs⟩ := pr
          rw [hrec] at ih
          simp only [okB, true_iff] at ih
          simpa [partitionElements, h1, h2, hrec, okB] using ih
      · simp [partitionElements, h1, h2, okB]

theorem Packet.init_okB_iff (p : PacketRecord) :
    okB (Packet.init p) = true ↔
      (lowerStr p.display_name = removeUnderscore p.wire_name ∧
       ∀ e ∈ p.elements, e.direction = "in" ∨ e.direction = "out") := by
  by_cases hname : lowerStr p.display_name ≠ removeUnderscore p.wire_name
  · simp [Packet.init, hname, okB]
  · have heq : lowerStr p.display_name = removeUnderscore p.wire_name := not_not.mp hname
    have hpe := partitionElements_okB_iff p.elements
    cases hrec : partitionElements p.elements with
    | error msg =>
      rw [hrec] at hpe
      simp only [okB, Bool.false_eq_true, false_iff] at hpe
      simp [Packet.init, hname, hrec, okB, heq, hpe]
    | ok pr =>
      obtain ⟨ins, outs⟩ := pr
      rw [hrec] at hpe
      simp only [okB, true_iff] at hpe
      simpa [Packet.init, hname, hrec, okB, heq] using hpe

theorem initPackets_okB_iff (rs : List PacketRecord) :
    okB (initPackets rs) = true ↔ ∀ r ∈ rs, okB (Packet.init r) = true := by
  induction rs with
  | nil => simp [initPackets, okB]
  | cons r rest ih =>
    cases h1 : Packet.init r with
    | error msg => simp [initPackets, h1, okB]
    | ok pk =>
      cases h2 : initPackets rest with
      | error msg =>
        rw [h2] at ih
        simp only [okB, Bool.false_eq_true, false_iff] at ih
        simp [initPackets, h1, h2, okB, ih]
      | ok pks =>
        rw [h2] at ih
        simp only [okB, true_iff] at ih
        simpa [initPackets, h1, h2, okB] using ih

theorem initPackets_records (rs : List PacketRecord) (pks : List Packet)
    (h : initPackets rs = .ok pks) :
    pks.map Packet.record = rs := by
  induction rs generalizing pks with
  | nil =>
    simp only [initPackets, Except.ok.injEq] at h
    subst h; rfl
  | cons r rest ih =>
    unfold initPackets at h
    cases h1 : Packet.init r with
    | error msg => rw [h1] at h; exact absurd h (by simp)
    | ok pk =>
      rw [h1] at h
      cases h2 : initPackets rest with
      | error msg => rw [h2] at h; exact absurd h (by simp)
      | ok rest2 =>
        rw [h2] at h
        simp only [Except.ok.injEq] at h
        subst h
        simp [(Packet.init_ok_parts r pk h1).1, ih rest2 h2]

theorem partitionPackets_okB_iff (pks : List Packet) :
    okB (partitionPackets pks) = true ↔
      ∀ pk ∈ pks, pk.record.typ = "function" ∨ pk.record.typ = "callback" := by
  induction pks with
  | nil => simp [partitionPackets, okB]
  | cons pk pks ih =>
    by_cases h1 : pk.record.typ = "function"
    · cases hrec : partitionPackets pks with
      | error msg =>
        rw [hrec] at ih
        simp only [okB, Bool.false_eq_true, false_iff] at ih
        simp [partitionPackets, h1, hrec, okB, ih]
      | ok pr =>
        obtain ⟨funcs, cbs⟩ := pr
        rw [hrec] at ih
        simp only [okB, true_iff] at ih
        simpa [partitionPackets, h1, hrec, okB] using ih
    · by_cases h2 : pk.record.typ = "callback"
      · cases hrec : partitionPackets pks with
        | error msg =>
          rw [hrec] at ih
          simp only [okB, Bool.false_eq_true, false_iff] at ih
          simp [partitionPackets, h1, h2, hrec, okB, ih]
        | ok pr =>
          obtain ⟨funcs, cbs⟩ := pr
          rw [hrec] at ih
          simp only [okB, true_iff] at ih
          simpa [partitionPackets, h1, h2, hrec, okB] using ih
      · simp [partitionPackets, h1, h2, okB]

theorem assignIds_forall_valid (rs : List PacketRecord) (n : Nat) :
    (∀ r ∈ assignIds n rs, recordValid r) ↔ ∀ r ∈ rs, recordValid r := by
  induction rs generalizing n with
  | nil => simp [assignIds]
  | cons p ps ih =>
    rw [assignIds]
    by_cases hid : p.function_id = none
    · rw [if_pos hid]
      simp only [List.forall_mem_cons]
      rw [ih (n + 1)]
      exact Iff.rfl
    · rw [if_neg hid]
      simp only [List.forall_mem_cons]
      rw [ih (n + 1)]

theorem Device.init_valid_iff (com : Com) :
    okB (Device.init com) = true ↔ ∀ r ∈ com.packets, recordValid r := by
  rw [← assignIds_forall_valid com.packets 0]
  cases h1 : initPackets (assignIds 0 com.packets) with
  | error msg =>
    have hip := initPackets_okB_iff (assignIds 0 com.packets)
    rw [h1] at hip
    simp only [okB, Bool.false_eq_true, false_iff] at hip
    have hdev : okB (Device.init com) = false := by
      unfold Device.init; rw [h1]; rfl
    rw [hdev]
    simp only [Bool.false_eq_true, false_iff]
    intro hall
    apply hip
    intro r hr
    exact (Packet.init_okB_iff r).mpr ⟨(hall r hr).1, (hall r hr).2.1⟩
  | ok pks =>
    have hrecmap := initPackets_records _ pks h1
    have hip := initPackets_okB_iff (assignIds 0 com.packets)
    rw [h1] at hip
    simp only [okB, true_iff] at hip
    have hdev : okB (Device.init com) = okB (partitionPackets pks) := by
      unfold Device.init; rw [h1]
      dsimp only
      cases h2 : partitionPackets pks with
      | error msg => rfl
      | ok pr => obtain ⟨f, c⟩ := pr; rfl
    rw [hdev, partitionPackets_okB_iff]
    constructor
    · intro htyp r hr
      have hinit_r := (Packet.init_okB_iff r).mp (hip r hr)
      refine ⟨hinit_r.1, hinit_r.2, ?_⟩
      rw [← hrecmap] at hr
      obtain ⟨pk, hpk, hpkr⟩ := List.mem_map.mp hr
      have htp := htyp pk hpk
      rwa [hpkr] at htp
    · intro hval pk hpk
      have hr : pk.record ∈ assignIds 0 com.packets := by
        rw [← hrecmap]; exact List.mem_map_of_mem _ hpk
      exact (hval pk.record hr).2.2

/-- Loading a device configuration fails exactly when a casing check,
an element direction or a packet kind is invalid. -/
theorem load_fails_iff (com : Com) :
    (∃ msg, Device.init com = .error msg) ↔
      ∃ r ∈ com.packets,
        lowerStr r.display_name ≠ removeUnderscore r.wire_name ∨
        (∃ e ∈ r.elements, e.direction ≠ "in" ∧ e.direction ≠ "out") ∨
        (r.typ ≠ "function" ∧ r.typ ≠ "callback") := by
  have hiff := Device.init_valid_iff com
  have herr : (∃ msg, Device.init com = .error msg) ↔ ¬ okB (Device.init com) = true := by
    cases hd : Device.init com with
    | error msg => simp [okB]
    | ok d => simp [okB]
  rw [herr, hiff]
  simp only [recordValid, not_forall, exists_prop, not_and_or, not_or,
    Classical.not_imp, not_and]

/-- The function ids of the packet records a device's `com` dict holds
after construction (`Device.__init__` writes into these shared dicts in
place). -/
def deviceComIds (d : Device) : List (Option Nat) :=
  d.com.packets.map PacketRecord.function_id

/-- C7 counterexample: loading is not free of side effects on its
input. The three packet records of `threeCom` carry no `function_id`
when passed in, yet after a successful load the very `com` record the
device holds — in Python the same dict objects the caller supplied,
mutated in place by `packet['function_id'] = i + 1` — carries the ids
1, 2, 3. -/
theorem c7_mutation_counterexample :
    threeCom.packets.map PacketRecord.function_id = [none, none, none] ∧
    (Device.init threeCom).toOption.map deviceComIds =
      some [some 1, some 2, some 3] :=
  ⟨rfl, rfl⟩

/-- C7 (amended): loading fails with an exception exactly when (a) some
packet's lowercased display name differs from its wire name with
underscores removed, (b) some element's direction is outside in/out, or
(c) some packet's kind is outside function/callback; loading is not
side-effect free, however: on success the caller's packet records have
been updated in place by exactly the function-id assignment (id-less
records receive their 1-based position), and this is the only change
made to the input. -/
theorem c7_load_fails_iff_and_mutates (com : Com) :
    ((∃ msg, Device.init com = .error msg) ↔
      ∃ r ∈ com.packets,
        lowerStr r.display_name ≠ removeUnderscore r.wire_name ∨
        (∃ e ∈ r.elements, e.direction ≠ "in" ∧ e.direction ≠ "out") ∨
        (r.typ ≠ "function" ∧ r.typ ≠ "callback")) ∧
    ∀ d, Device.init com = .ok d →
      d.com = { com with packets := assignIds 0 com.packets } := by
  refine ⟨load_fails_iff com, ?_⟩
  intro d hd
  exact (Device.init_ok_split com d hd).1

theorem c7_load_fails_iff_and_mutates_witness :
    threeDev.com = { threeCom with packets := assignIds 0 threeCom.packets } :=
  (c7_load_fails_iff_and_mutates threeCom).2 threeDev rfl

/-- C10: `get_elements` returns the full list for no direction, the
in/out sublists for `in`/`out`, and raises for any other direction;
`get_packets` returns all packets for no selector, the function or
callback sublists for `function`/`callback`, and raises for any other
selector. -/
theorem c10_selectors (pk : Packet) (d : Device) :
    pk.get_elements none = .ok pk.all_elements ∧
    pk.get_elements (some "in") = .ok pk.in_elements ∧
    pk.get_elements (some "out") = .ok pk.out_elements ∧
    (∀ s : String, s ≠ "in" → s ≠ "out" →
      pk.get_elements (some s) = .error ("Invalid element direction " ++ s)) ∧
    d.get_packets none = .ok d.all_packets ∧
    d.get_packets (some "function") = .ok d.function_packets ∧
    d.get_packets (some "callback") = .ok d.callback_packets ∧
    (∀ s : String, s ≠ "function" → s ≠ "callback" →
      d.get_packets (some s) = .error ("Invalid packet type " ++ s)) := by
  refine ⟨rfl, by simp [Packet.get_elements], by simp [Packet.get_elements], ?_,
    rfl, by simp [Device.get_packets], by simp [Device.get_packets], ?_⟩
  · intro s h1 h2
    simp [Packet.get_elements, h1, h2]
  · intro s h1 h2
    simp [Device.get_packets, h1, h2]

theorem c10_selectors_witness :
    beepPacket.get_elements (some "sideways") =
      .error ("Invalid element direction " ++ "sideways") :=
  (c10_selectors beepPacket threeDev).2.2.2.1 "sideways" (by decide) (by decide)

/-- The text of `gen_text_rst` before the `{0}` date placeholder. -/
def rstBannerPre : String :=
  "..\n #############################################################\n # This file was automatically generated on "

/-- The text of `gen_text_rst` after the `{0}` date placeholder. -/
def rstBannerPost : String :=
  ".      #\n #                                                           #\n # If you have a bugfix for this file and want to commit it, #\n # please fix the bug in the generator. You can find a link  #\n # to the generator git on tinkerforge.com                   #\n #############################################################\n"

/-- `gen_text_rst.format(date)`: the auto-generation banner with the
current date substituted. -/
def gen_text_rst (date : String) : String :=
  rstBannerPre ++ date ++ rstBannerPost

def Device.get_underscore_name (d : Device) : String :=
  d.com.underscore_name

def Device.get_category (d : Device) : String :=
  d.com.category

def Device.get_display_name (d : Device) : String :=
  d.com.display_name

/-- `make_rst_header` with `datetime.datetime.now().strftime("%Y-%m-%d")`
lifted to the explicit `date` argument: the generated header embeds the
date the run happens on. -/
def make_rst_header (device : Device) (ref_name title date : String) : String :=
  gen_text_rst date ++ "\n" ++
    (".. _" ++ device.get_underscore_name ++ "_" ++ lowerStr device.get_category ++
      "_" ++ ref_name ++ ":\n") ++ "\n" ++
    (title ++ " - " ++ device.get_display_name ++ " " ++ device.get_category) ++ "\n" ++
    String.mk (List.replicate
      (title ++ " - " ++ device.get_display_name ++ " " ++ device.get_category).length
      '=') ++ "\n"

theorem strData_append (a b : String) : (a ++ b).data = a.data ++ b.data := by
  cases a; cases b; rfl

theorem strData_inj (a b : String) (h : a.data = b.data) : a = b := by
  cases a; cases b; exact congrArg String.mk h

theorem make_rst_header_date_inj (device : Device) (ref_name title d1 d2 : String)
    (h : make_rst_header device ref_name title d1 =
      make_rst_header device ref_name title d2) :
    d1 = d2 := by
  apply strData_inj
  have hd := congrArg String.data h
  simp only [make_rst_header, gen_text_rst, strData_append, List.append_assoc] at hd
  have hd2 := List.append_cancel_left hd
  have h1 := congrArg List.length hd2
  simp only [List.length_append] at h1
  have hlen : d1.data.length = d2.data.length := by omega
  exact List.append_inj_left hd2 hlen

/-- C9 (amended): generation output is a deterministic function of the
configuration and of the generation date, which is embedded in the
output: for a fixed device and arguments, two headers are byte-identical
exactly when their generation dates coincide — so reruns on the same
date reproduce the output, while runs on different dates differ. -/
theorem c9_header_determinism (device : Device) (ref_name title d1 d2 : String) :
    make_rst_header device ref_name title d1 =
        make_rst_header device ref_name title d2 ↔
      d1 = d2 := by
  constructor
  · exact make_rst_header_date_inj device ref_name title d1 d2
  · intro h; rw [h]

/-- C9 counterexample: two generation runs over the identical
configuration, one on 2012-01-01 and one on 2012-01-02, produce
different bytes — the output depends on the clock, not only on the
configuration. -/
theorem c9_date_dependence_counterexample :
    make_rst_header threeDev "api" "Java" "2012-01-01" ≠
      make_rst_header threeDev "api" "Java" "2012-01-02" := by
  intro h
  have hd := make_rst_header_date_inj threeDev "api" "Java" _ _ h
  exact absurd hd (by decide)

/-- A scalar wire value of the generated Java code: the little-endian
bit pattern of a numeric/char element (as an unsigned `Nat`), or a
boolean. -/
inductive SVal
  | n (v : Nat)
  | b (v : Bool)
deriving DecidableEq, Repr, Inhabited

/-- The value carried by one element: a scalar, a fixed-cardinality
array of scalars, or a string given as its character codes. -/
inductive JVal
  | scalar (sv : SVal)
  | array (svs : List SVal)
  | str (cs : List Nat)
deriving DecidableEq, Repr, Inhabited

/-- Little-endian bytes of `v`, truncated to `w` bytes, as the chain of
`(byte)`/`(short)`/... casts and the little-endian `ByteBuffer` put of
the element's width produce. -/
def toBytesLE : Nat → Nat → List Nat
  | 0, _ => []
  | w + 1, v => v % 256 :: toBytesLE w (v / 256)

/-- Little-endian reassembly performed by the generated get of the
element's width. -/
def fromBytesLE : List Nat → Nat
  | [] => 0
  | b :: bs => b + 256 * fromBytesLE bs

/-- Modelled from the spec (§4.5): the byte written for one scalar by
the emitted pack-request code — booleans as `b ? 1 : 0`, every other
type as the `w`-byte little-endian pattern (the target's little-endian
primitive write for the type's width; `java_common.py` with the
byte-buffer suffix table is not under `src/`). -/
def pack_scalar (typ : String) (w : Nat) (sv : SVal) : Option (List Nat) :=
  if typ = "bool" then
    match sv with
    | .b v => some [if v then 1 else 0]
    | _ => none
  else
    match sv with
    | .n v => some (toBytesLE w v)
    | _ => none

/-- Modelled from the spec (§4.5): the scalar read of the emitted
unpack-response code — `w` little-endian bytes, booleans via `!= 0`. -/
def unpack_scalar (typ : String) (w : Nat) (bs : List Nat) : Option (SVal × List Nat) :=
  if w ≤ bs.length then
    if typ = "bool" then some (.b (fromBytesLE (bs.take w) != 0), bs.drop w)
    else some (.n (fromBytesLE (bs.take w)), bs.drop w)
  else none

/-- Concatenate per-scalar encodings, failing if any fails. -/
def concatOpt : List (Option (List Nat)) → Option (List Nat)
  | [] => some []
  | ob :: rest =>
    match ob with
    | none => none
    | some b =>
      match concatOpt rest with
      | none => none
      | some a => some (b ++ a)

/-- Modelled from the spec (§4.5) and the emitted method bodies in
`generate_java_bindings.py`: pack one in-element — a string writes up
to `cardinality` bytes (the `charAt(i)` loop with the catch-all zero
pad: over-length truncated, short strings zero-padded, each char cast
to a byte), a cardinality>1 element loops over its scalars, a scalar
element writes once. -/
def pack_element (e : Element) (v : JVal) : Option (List Nat) :=
  match get_type_size e.typ with
  | none => none
  | some w =>
    if e.typ = "string" then
      match v with
      | .str cs =>
        some ((cs.take e.cardinality).map (fun c => c % 256) ++
          List.replicate (e.cardinality - cs.length) 0)
      | _ => none
    else if e.cardinality > 1 then
      match v with
      | .array svs =>
        if svs.length = e.cardinality then concatOpt (svs.map (pack_scalar e.typ w))
        else none
      | _ => none
    else
      match v with
      | .scalar sv => pack_scalar e.typ w sv
      | _ => none

/-- Read `k` scalars of one element type in sequence. -/
def unpack_scalars (typ : String) (w : Nat) : Nat → List Nat → Option (List SVal × List Nat)
  | 0, bs => some ([], bs)
  | k + 1, bs =>
    match unpack_scalar typ w bs with
    | none => none
    | some (sv, rest) =>
      match unpack_scalars typ w k rest with
      | none => none
      | some (svs, rest2) => some (sv :: svs, rest2)

/-- Modelled from the spec (§4.5): unpack one out-element — a string
reads exactly `cardinality` bytes (the emitted
`IPConnection.string(bb, cardinality)` call; `IPConnection` is not
under `src/`, the spec fixes the read at exactly `cardinality`), a
cardinality>1 element loops, a scalar element reads once. -/
def unpack_element (e : Element) (bs : List Nat) : Option (JVal × List Nat) :=
  match get_type_size e.typ with
  | none => none
  | some w =>
    if e.typ = "string" then
      if e.cardinality ≤ bs.length then
        some (.str (bs.take e.cardinality), bs.drop e.cardinality)
      else none
    else if e.cardinality > 1 then
      match unpack_scalars e.typ w e.cardinality bs with
      | none => none
      | some (svs, rest) => some (.array svs, rest)
    else
      match unpack_scalar e.typ w bs with
      | none => none
      | some (sv, rest) => some (.scalar sv, rest)

/-- Pack a whole element list in declaration order. -/
def pack_elements : List Element → List JVal → Option (List Nat)
  | [], [] => some []
  | e :: es, v :: vs =>
    match pack_element e v, pack_elements es vs with
    | some b, some rest => some (b ++ rest)
    | _, _ => none
  | _, _ => none

/-- Unpack a whole element list in declaration order. -/
def unpack_elements : List Element → List Nat → Option (List JVal × List Nat)
  | [], bs => some ([], bs)
  | e :: es, bs =>
    match unpack_element e bs with
    | none => none
    | some (v, rest) =>
      match unpack_elements es rest with
      | none => none
      | some (vs, rest2) => some (v :: vs, rest2)

/-- A scalar value is well-typed for the element type and fits its
width. -/
def svalFits (typ : String) (w : Nat) : SVal → Bool
  | .b _ => typ == "bool"
  | .n v => (typ != "bool") && decide (v < 256 ^ w)

/-- A value matches its element declaration: a string value (characters
in byte range, any length) for string elements, a full-length array of
fitting scalars for cardinality>1 elements, a fitting scalar
otherwise; the element's type must be in the width table. -/
def valFits (e : Element) (v : JVal) : Bool :=
  match get_type_size e.typ with
  | none => false
  | some w =>
    if e.typ = "string" then
      match v with
      | .str cs => cs.all (fun c => decide (c < 256))
      | _ => false
    else if e.cardinality > 1 then
      match v with
      | .array svs => decide (svs.length = e.cardinality) && svs.all (svalFits e.typ w)
      | _ => false
    else
      match v with
      | .scalar sv => svalFits e.typ w sv
      | _ => false

/-- Pairwise `valFits` over an element/value list. -/
def valsFit : List Element → List JVal → Bool
  | [], [] => true
  | e :: es, v :: vs => valFits e v && valsFit es vs
  | _, _ => false

/-- The value the round trip is expected to return: strings are
truncated to the declared cardinality and zero-padded up to it; every
other value is returned unchanged. -/
def normalize_value (e : Element) : JVal → JVal
  | .str cs => .str (cs.take e.cardinality ++ List.replicate (e.cardinality - cs.length) 0)
  | .scalar sv => .scalar sv
  | .array svs => .array svs

theorem toBytesLE_length (w v : Nat) : (toBytesLE w v).length = w := by
  induction w generalizing v with
  | zero => rfl
  | succ w ih => simp [toBytesLE, ih]

theorem fromBytesLE_toBytesLE (w v : Nat) :
    fromBytesLE (toBytesLE w v) = v % 256 ^ w := by
  induction w generalizing v with
  | zero => simp [toBytesLE, fromBytesLE, Nat.mod_one]
  | succ w ih => rw [toBytesLE, fromBytesLE, ih, Nat.pow_succ', Nat.mod_mul]

theorem unpack_pack_scalar (typ : String) (w : Nat) (sv : SVal) (rest : List Nat)
    (hfit : svalFits typ w sv = true) (hbw : typ = "bool" → w = 1) :
    ∃ bytes, pack_scalar typ w sv = some bytes ∧
      unpack_scalar typ w (bytes ++ rest) = some (sv, rest) := by
  cases sv with
  | b v =>
    simp only [svalFits, beq_iff_eq] at hfit
    subst hfit
    have hw := hbw rfl
    subst hw
    refine ⟨[if v then 1 else 0], by simp [pack_scalar], ?_⟩
    cases v <;> simp [unpack_scalar, fromBytesLE]
  | n v =>
    simp only [svalFits, Bool.and_eq_true, bne_iff_ne, decide_eq_true_eq] at hfit
    obtain ⟨hne, hlt⟩ := hfit
    have hlen : (toBytesLE w v).length = w := toBytesLE_length w v
    have htake : (toBytesLE w v ++ rest).take w = toBytesLE w v := by
      have h := List.take_left (toBytesLE w v) rest
      rwa [hlen] at h
    have hdrop : (toBytesLE w v ++ rest).drop w = rest := by
      have h := List.drop_left (toBytesLE w v) rest
      rwa [hlen] at h
    refine ⟨toBytesLE w v, by simp [pack_scalar, hne], ?_⟩
    rw [unpack_scalar, if_pos (by simp [hlen]), if_neg hne, htake, hdrop,
      fromBytesLE_toBytesLE, Nat.mod_eq_of_lt hlt]

theorem unpack_pack_scalars (typ : String) (w : Nat) (svs : List SVal) (rest : List Nat)
    (hfit : ∀ sv ∈ svs, svalFits typ w sv = true) (hbw : typ = "bool" → w = 1) :
    ∃ bytes, concatOpt (svs.map (pack_scalar typ w)) = some bytes ∧
      unpack_scalars typ w svs.length (bytes ++ rest) = some (svs, rest) := by
  induction svs generalizing rest with
  | nil => exact ⟨[], rfl, rfl⟩
  | cons sv svs ih =>
    obtain ⟨bytes2, hp2, hu2⟩ := ih rest (fun x hx => hfit x (List.mem_cons_of_mem _ hx))
    obtain ⟨bytes1, hp1, hu1⟩ := unpack_pack_scalar typ w sv (bytes2 ++ rest)
      (hfit sv (List.mem_cons_self _ _)) hbw
    refine ⟨bytes1 ++ bytes2, ?_, ?_⟩
    · simp [concatOpt, hp1, hp2]
    · simp only [List.length_cons, unpack_scalars, List.append_assoc, hu1, hu2]

theorem mapMod256_eq_self (l : List Nat) (h : ∀ c ∈ l, c < 256) :
    l.map (fun c => c % 256) = l := by
  induction l with
  | nil => rfl
  | cons c cs ih =>
    rw [List.map_cons, Nat.mod_eq_of_lt (h c (List.mem_cons_self _ _)),
      ih (fun x hx => h x (List.mem_cons_of_mem _ hx))]

theorem unpack_pack_element (e : Element) (v : JVal) (rest : List Nat)
    (hfit : valFits e v = true) :
    ∃ bytes, pack_element e v = some bytes ∧
      unpack_element e (bytes ++ rest) = some (normalize_value e v, rest) := by
  unfold valFits at hfit
  cases hw : get_type_size e.typ with
  | none => rw [hw] at hfit; exact absurd hfit (by simp)
  | some w =>
    rw [hw] at hfit
    dsimp only at hfit
    have hbw : e.typ = "bool" → w = 1 := by
      intro h
      rw [h] at hw
      have h1 : get_type_size "bool" = some 1 := rfl
      rw [h1] at hw
      exact (Option.some_inj.mp hw).symm
    by_cases hstr : e.typ = "string"
    · rw [if_pos hstr] at hfit
      cases v with
      | scalar sv => exact absurd hfit (by simp)
      | array svs => exact absurd hfit (by simp)
      | str cs =>
        simp only [List.all_eq_true, decide_eq_true_eq] at hfit
        have hmap : (cs.take e.cardinality).map (fun c => c % 256) = cs.take e.cardinality :=
          mapMod256_eq_self _ (fun c hc => hfit c (List.take_subset _ _ hc))
        have hlen :
            ((cs.take e.cardinality).map (fun c => c % 256) ++
              List.replicate (e.cardinality - cs.length) 0).length = e.cardinality := by
          simp only [List.length_append, List.length_map, List.length_take,
            List.length_replicate]
          omega
        refine ⟨(cs.take e.cardinality).map (fun c => c % 256) ++
          List.replicate (e.cardinality - cs.length) 0, ?_, ?_⟩
        · simp only [pack_element, hw, if_pos hstr]
        · have htake := List.take_left
            ((cs.take e.cardinality).map (fun c => c % 256) ++
              List.replicate (e.cardinality - cs.length) 0) rest
          rw [hlen] at htake
          have hdrop := List.drop_left
            ((cs.take e.cardinality).map (fun c => c % 256) ++
              List.replicate (e.cardinality - cs.length) 0) rest
          rw [hlen] at hdrop
          simp only [unpack_element, hw, if_pos hstr]
          rw [if_pos (by simp only [List.length_append, hlen]; omega), htake, hdrop,
            normalize_value, hmap]
    · by_cases hcard : e.cardinality > 1
      · rw [if_neg hstr, if_pos hcard] at hfit
        cases v with
        | scalar sv => exact absurd hfit (by simp)
        | str cs => exact absurd hfit (by simp)
        | array svs =>
          simp only [Bool.and_eq_true, decide_eq_true_eq, List.all_eq_true] at hfit
          obtain ⟨hlensvs, hall⟩ := hfit
          obtain ⟨bytes, hp, hu⟩ := unpack_pack_scalars e.typ w svs rest hall hbw
          refine ⟨bytes, ?_, ?_⟩
          · simp only [pack_element, hw, if_neg hstr, if_pos hcard, if_pos hlensvs]
            exact hp
          · simp only [unpack_element, hw, if_neg hstr, if_pos hcard]
            rw [← hlensvs, hu]
            rfl
      · rw [if_neg hstr, if_neg hcard] at hfit
        cases v with
        | array svs => exact absurd hfit (by simp)
        | str cs => exact absurd hfit (by simp)
        | scalar sv =>
          obtain ⟨bytes, hp, hu⟩ := unpack_pack_scalar e.typ w sv rest hfit hbw
          refine ⟨bytes, ?_, ?_⟩
          · simp only [pack_element, hw, if_neg hstr, if_neg hcard]
            exact hp
          · simp only [unpack_element, hw, if_neg hstr, if_neg hcard]
            rw [hu]
            rfl

theorem unpack_pack_elements (es : List Element) (vs : List JVal) (rest : List Nat)
    (hfit : valsFit es vs = true) :
    ∃ bytes, pack_elements es vs = some bytes ∧
      unpack_elements es (bytes ++ rest) =
        some (List.zipWith normalize_value es vs, rest) := by
  induction es generalizing vs rest with
  | nil =>
    cases vs with
    | nil => exact ⟨[], rfl, rfl⟩
    | cons v vs => simp [valsFit] at hfit
  | cons e es ih =>
    cases vs with
    | nil => simp [valsFit] at hfit
    | cons v vs =>
      simp only [valsFit, Bool.and_eq_true] at hfit
      obtain ⟨h1, h2⟩ := hfit
      obtain ⟨bytes2, hp2, hu2⟩ := ih vs rest h2
      obtain ⟨bytes1, hp1, hu1⟩ := unpack_pack_element e v (bytes2 ++ rest) h1
      refine ⟨bytes1 ++ bytes2, ?_, ?_⟩
      · simp only [pack_elements, hp1, hp2]
      · simp only [unpack_elements, List.append_assoc, hu1, hu2, List.zipWith]

/-- C8: packing an element list's values with the emitted pack-request
semantics and unpacking the same bytes with the emitted
unpack-response semantics recovers the original values bit-for-bit,
for every type in the width table, including cardinality>1 arrays; a
string comes back truncated to its declared cardinality when
over-length and zero-padded to it when under-length. -/
theorem c8_pack_unpack_roundtrip (es : List Element) (vs : List JVal)
    (hfit : valsFit es vs = true) :
    ∃ bytes, pack_elements es vs = some bytes ∧
      unpack_elements es bytes =
        some (List.zipWith normalize_value es vs, []) := by
  obtain ⟨bytes, hp, hu⟩ := unpack_pack_elements es vs [] hfit
  rw [List.append_nil] at hu
  exact ⟨bytes, hp, hu⟩

/-- Elements exercising a scalar, an array, an over-length string, an
under-length string, a boolean and a wide scalar. -/
def c8Elements : List Element :=
  [⟨"voltage", "uint16", 1, "in"⟩, ⟨"rgb", "uint8", 3, "in"⟩,
   ⟨"name", "string", 5, "in"⟩, ⟨"tag", "string", 4, "in"⟩,
   ⟨"enabled", "bool", 1, "in"⟩, ⟨"count", "uint32", 1, "in"⟩]

/-- Values for `c8Elements`: `"hello!!"` (7 chars) against cardinality
5, `"hi"` (2 chars) against cardinality 4. -/
def c8Values : List JVal :=
  [.scalar (.n 513), .array [.n 1, .n 2, .n 255],
   .str [104, 101, 108, 108, 111, 33, 33], .str [104, 105],
   .scalar (.b true), .scalar (.n 4000000000)]

theorem c8_pack_unpack_roundtrip_witness :
    valsFit c8Elements c8Values = true ∧
    unpack_elements c8Elements ((pack_elements c8Elements c8Values).getD []) =
      some (List.zipWith normalize_value c8Elements c8Values, []) := by
  refine ⟨by decide, ?_⟩
  obtain ⟨bytes, hp, hu⟩ := c8_pack_unpack_roundtrip c8Elements c8Values (by decide)
  rw [hp]
  simpa using hu
